import Mathlib

/-!
Shallow embedding of the dro Flat-Map-RB-Tree repository
(src/include/dro/flat-rb-tree.hpp and src/include/dro/hash_flat_map.hpp)
and proofs about its specification claims.

Conventions of the embedding:
* Keys and mapped values are natural numbers; the comparator is `<` on Nat
  (the default std::less<int> instantiation used throughout the repository's
  tests), key equality is `=`.
* The index type `size_type` is modelled as Nat with the 64-bit sentinel
  `eIdx = 2^64 - 1` (`empty_index_ = std::numeric_limits<size_t>::max()`);
  unsigned wraparound is written out explicitly where the source can
  underflow or overflow (`dec64`, capacity doubling).
* `std::vector<Node>` is a `List` of node records; `tree_[i]` reads are
  `List.getD i default` (an in-bounds read is exact; an out-of-bounds read
  is undefined behaviour in C++ and is concretised as the default node),
  writes are `List.set` (out-of-bounds writes, undefined behaviour in C++,
  are concretised as no-ops).
* Loops of the source are given explicit fuel that strictly exceeds the
  number of iterations of any terminating run (a C++ loop on a well-formed
  tree runs at most `tree_.size()` iterations); fuel exhaustion, which can
  only happen where the C++ would not terminate or run into undefined
  behaviour, returns a harmless default.
* Functions that can `throw` in C++ return `Except String`.
-/

set_option maxRecDepth 1000000

namespace DroFlat

/-- The 64-bit sentinel `empty_index_ = std::numeric_limits<size_t>::max()`. -/
def eIdx : Nat := 2 ^ 64 - 1

/-- 64-bit unsigned decrement (`x - 1` on `size_t`, wrapping at zero). -/
def dec64 (n : Nat) : Nat := (n + (2 ^ 64 - 1)) % 2 ^ 64

/-- Node record of `dro::details::Node<Pair, Size>`: key/value pair, tree links
and a colour bit (`false` = RED, `true` = BLACK), with the default member
initialisers `parent_ = left_ = right_ = empty_index_`, `color_ = RED`. -/
structure PNode where
  key : Nat := 0
  val : Nat := 0
  parent : Nat := eIdx
  left : Nat := eIdx
  right : Nat := eIdx
  color : Bool := false
deriving Repr, DecidableEq

/-- The default-constructed node (all member initialisers). -/
def dfltP : PNode := { key := 0 }

/-- State of a `dro::details::FlatRBTree`: `capacity_`, `size_`, `root_` and
the backing vector `tree_`. -/
structure PT where
  capacity : Nat := 1
  size : Nat := 0
  root : Nat := eIdx
  nodes : List PNode := []
deriving Repr, DecidableEq

/-- Read `tree_[i]` (out-of-bounds concretised as a default node). -/
def nd (t : PT) (i : Nat) : PNode := t.nodes.getD i dfltP

/-- Write `tree_[i] = n` (out-of-bounds concretised as a no-op). -/
def wr (t : PT) (i : Nat) (n : PNode) : PT := { t with nodes := t.nodes.set i n }

/-- Modify the node at slot `i` in place. -/
def modNd (t : PT) (i : Nat) (f : PNode → PNode) : PT := wr t i (f (nd t i))

/-- The constructor `FlatRBTree(capacity)`: `capacity_(capacity)`,
`tree_(capacity_)` (a vector of `capacity` default nodes). It performs no
validation of `capacity` whatsoever. -/
def mkPT (capacity : Nat) : PT :=
  { capacity := capacity, size := 0, root := eIdx,
    nodes := List.replicate capacity dfltP }

/-- `std::vector::resize(n)`: truncate, or extend with default elements. -/
def resizeList (l : List PNode) (n : Nat) : List PNode :=
  if n ≤ l.length then l.take n else l ++ List.replicate (n - l.length) dfltP

/-- `FlatRBTree::_resizeTree(new_cap = 0)`: explicit growth for `reserve`,
else double `capacity_` (64-bit product, capped at the sentinel by
`std::min(empty_index_, capacity_ * 2)`) when `size_ == capacity_`. -/
def resizeTree (t : PT) (newCap : Nat) : PT :=
  if newCap > t.capacity then { t with nodes := resizeList t.nodes newCap }
  else if t.size = t.capacity then
    let c2 := min eIdx (t.capacity * 2 % 2 ^ 64)
    { t with capacity := c2, nodes := resizeList t.nodes c2 }
  else t

/-- The capacity produced by the doubling branch of `_resizeTree`. -/
def grownCapacity (cap : Nat) : Nat := min eIdx (cap * 2 % 2 ^ 64)

/-- `FlatRBTree::_find_index` loop body (binary-search descent), with fuel. -/
def findIndexGo : Nat → PT → Nat → Nat → Nat
  | 0, _, _, _ => eIdx
  | f + 1, t, node, key =>
    if node = eIdx then eIdx
    else
      let nodeRef := nd t node
      if nodeRef.key = key then node
      else if nodeRef.key < key then findIndexGo f t nodeRef.right key
      else findIndexGo f t nodeRef.left key

/-- `FlatRBTree::_find_index(key)`: BST descent from the root; returns the
matching slot or the sentinel. -/
def findIndex (t : PT) (key : Nat) : Nat :=
  findIndexGo (t.nodes.length + 1) t t.root key

/-- `FlatRBTree::_findInsertLocation` loop, with fuel: returns
`(parent, true)` when the key is absent and `(slot, false)` when present. -/
def findInsGo : Nat → PT → Nat → Nat → Nat → Nat × Bool
  | 0, _, _, parent, _ => (parent, true)
  | f + 1, t, node, parent, key =>
    if node = eIdx then (parent, true)
    else
      let parentRef := nd t node
      if key = parentRef.key then (node, false)
      else if key < parentRef.key then findInsGo f t parentRef.left node key
      else findInsGo f t parentRef.right node key

/-- `FlatRBTree::_findInsertLocation(key)`. -/
def findInsertLocation (t : PT) (key : Nat) : Nat × Bool :=
  findInsGo (t.nodes.length + 1) t t.root eIdx key

/-- `FlatRBTree::_insertUpdateParentRoot`: link the fresh slot as the left or
right child of the parent found by the descent. -/
def insertUpdateParentRoot (t : PT) (key parent insertIndex : Nat) : PT :=
  if key < (nd t parent).key then
    modNd t parent (fun n => { n with left := insertIndex })
  else
    modNd t parent (fun n => { n with right := insertIndex })

/-- `FlatRBTree::_updateParent`: `tree_[node].parent_ = newParent` guarded by
`node != empty_index_`. -/
def updateParent (t : PT) (node newParent : Nat) : PT :=
  if node ≠ eIdx then modNd t node (fun n => { n with parent := newParent })
  else t

/-- `FlatRBTree::_updateParentChild`: re-point the erased slot's parent (or
the root) at `child`. -/
def updateParentChild (t : PT) (child parent eraseIndex : Nat) : PT :=
  if parent = eIdx then { t with root := child }
  else if (nd t parent).left = eraseIndex then
    modNd t parent (fun n => { n with left := child })
  else
    modNd t parent (fun n => { n with right := child })

/-- `FlatRBTree::_transferData`: copy `parent_/color_/left_/right_` of slot
`nodeRight` onto slot `nodeLeft` (four sequential field assignments). -/
def transferData (t : PT) (nodeLeft nodeRight : Nat) : PT :=
  let t := modNd t nodeLeft (fun n => { n with parent := (nd t nodeRight).parent })
  let t := modNd t nodeLeft (fun n => { n with color := (nd t nodeRight).color })
  let t := modNd t nodeLeft (fun n => { n with left := (nd t nodeRight).left })
  modNd t nodeLeft (fun n => { n with right := (nd t nodeRight).right })

/-- `std::swap(tree_[i].pair_, tree_[j].pair_)` as two sequential writes. -/
def swapPair (t : PT) (i j : Nat) : PT :=
  let a := nd t i
  let b := nd t j
  let t := wr t i { (nd t i) with key := b.key, val := b.val }
  wr t j { (nd t j) with key := a.key, val := a.val }

/-- `std::swap(tree_[i].color_, tree_[j].color_)`. -/
def swapColor (t : PT) (i j : Nat) : PT :=
  let x := (nd t i).color
  let y := (nd t j).color
  let t := modNd t i (fun n => { n with color := y })
  modNd t j (fun n => { n with color := x })

/-- `FlatRBTree::_rotateLeft(node)`: payload-swapping left rotation; returns
the original right-child slot (holding, afterwards, the pivot's payload). -/
def rotateLeft (t : PT) (node : Nat) : PT × Nat :=
  let child := (nd t node).right
  let childRight := (nd t child).right
  let t := if childRight ≠ eIdx then
             modNd t childRight (fun n => { n with parent := node }) else t
  let nodeLeft := (nd t node).left
  let t := if nodeLeft ≠ eIdx then
             modNd t nodeLeft (fun n => { n with parent := child }) else t
  let t := swapPair t node child
  let t := swapColor t node child
  -- std::swap(nodeRef.left_, childRef.right_)
  let x := (nd t node).left
  let y := (nd t child).right
  let t := modNd t node (fun n => { n with left := y })
  let t := modNd t child (fun n => { n with right := x })
  -- std::swap(nodeRef.left_, nodeRef.right_)
  let x2 := (nd t node).left
  let y2 := (nd t node).right
  let t := modNd t node (fun n => { n with left := y2 })
  let t := modNd t node (fun n => { n with right := x2 })
  -- std::swap(childRef.left_, childRef.right_)
  let x3 := (nd t child).left
  let y3 := (nd t child).right
  let t := modNd t child (fun n => { n with left := y3 })
  let t := modNd t child (fun n => { n with right := x3 })
  (t, child)

/-- `FlatRBTree::_rotateRight(node)`: mirror image of `rotateLeft`. -/
def rotateRight (t : PT) (node : Nat) : PT × Nat :=
  let child := (nd t node).left
  let childLeft := (nd t child).left
  let t := if childLeft ≠ eIdx then
             modNd t childLeft (fun n => { n with parent := node }) else t
  let nodeRight := (nd t node).right
  let t := if nodeRight ≠ eIdx then
             modNd t nodeRight (fun n => { n with parent := child }) else t
  let t := swapPair t node child
  let t := swapColor t node child
  -- std::swap(nodeRef.right_, childRef.left_)
  let x := (nd t node).right
  let y := (nd t child).left
  let t := modNd t node (fun n => { n with right := y })
  let t := modNd t child (fun n => { n with left := x })
  -- std::swap(nodeRef.left_, nodeRef.right_)
  let x2 := (nd t node).left
  let y2 := (nd t node).right
  let t := modNd t node (fun n => { n with left := y2 })
  let t := modNd t node (fun n => { n with right := x2 })
  -- std::swap(childRef.left_, childRef.right_)
  let x3 := (nd t child).left
  let y3 := (nd t child).right
  let t := modNd t child (fun n => { n with left := y3 })
  let t := modNd t child (fun n => { n with right := x3 })
  (t, child)

/-- `FlatRBTree::_swapNodePosition(nodeA, nodeB)`: exchange the physical
positions of two slots, repairing all surrounding links, then swap the
records. -/
def swapNodePosition (t0 : PT) (nodeA nodeB : Nat) : PT :=
  if nodeA = nodeB then t0 else
  let aRef := nd t0 nodeA
  let bRef := nd t0 nodeB
  let nodeAParent := aRef.parent
  let nodeBParent := bRef.parent
  let nodeALeft := aRef.left
  let nodeARight := aRef.right
  let nodeBLeft := bRef.left
  let nodeBRight := bRef.right
  -- Swap Parent Index
  let t := t0
  let t := if nodeAParent ≠ eIdx then
             (if (nd t nodeAParent).left = nodeA then
                modNd t nodeAParent (fun n => { n with left := nodeB })
              else modNd t nodeAParent (fun n => { n with right := nodeB }))
           else t
  let t := if nodeBParent ≠ eIdx then
             (if (nd t nodeBParent).left = nodeB then
                modNd t nodeBParent (fun n => { n with left := nodeA })
              else modNd t nodeBParent (fun n => { n with right := nodeA }))
           else t
  -- Check if nodes have relationship
  let t := if nodeAParent = nodeB then
             modNd t nodeA (fun n => { n with parent := nodeA }) else t
  let t := if nodeBParent = nodeA then
             modNd t nodeB (fun n => { n with parent := nodeB }) else t
  -- Swap Children Index
  let t := if nodeALeft ≠ eIdx then
             modNd t nodeALeft (fun n => { n with parent := nodeB }) else t
  let t := if nodeARight ≠ eIdx then
             modNd t nodeARight (fun n => { n with parent := nodeB }) else t
  let t := if nodeBLeft ≠ eIdx then
             modNd t nodeBLeft (fun n => { n with parent := nodeA }) else t
  let t := if nodeBRight ≠ eIdx then
             modNd t nodeBRight (fun n => { n with parent := nodeA }) else t
  -- Update Root if in swap
  let t := { t with root :=
               if t.root = nodeA then nodeB
               else if t.root = nodeB then nodeA else t.root }
  -- Swap vector position
  let x := nd t nodeA
  let y := nd t nodeB
  let t := wr t nodeA y
  wr t nodeB x

/-- `FlatRBTree::_swapNodePositionRemove(nodeA, nodeB, child&, parent&)`:
move slot `nodeA`'s record into slot `nodeB` on the way out of the tree,
updating the by-reference `child`/`parent` cursors of `_erase`. -/
def swapNodePositionRemove (t0 : PT) (nodeA nodeB child parent : Nat) :
    PT × Nat × Nat :=
  if nodeA = nodeB then (t0, child, parent) else
  let child := if nodeA = child then nodeB else child
  let parent := if nodeA = parent then nodeB else parent
  let aRef := nd t0 nodeA
  let nodeAParent := aRef.parent
  let nodeALeft := aRef.left
  let nodeARight := aRef.right
  let t := t0
  -- Swap Parent Index
  let t := if nodeAParent ≠ eIdx then
             (if (nd t nodeAParent).left = nodeA then
                modNd t nodeAParent (fun n => { n with left := nodeB })
              else modNd t nodeAParent (fun n => { n with right := nodeB }))
           else t
  -- Swap Children Index
  let t := if nodeALeft ≠ eIdx then
             modNd t nodeALeft (fun n => { n with parent := nodeB }) else t
  let t := if nodeARight ≠ eIdx then
             modNd t nodeARight (fun n => { n with parent := nodeB }) else t
  -- Update Root if in swap
  let t := { t with root := if t.root = nodeA then nodeB else t.root }
  -- Swap vector position
  let x := nd t nodeA
  let y := nd t nodeB
  let t := wr t nodeA y
  let t := wr t nodeB x
  (t, child, parent)

/-- `FlatRBTree::_swapOutOfTree(node, removeNode, child&, parent&)`. -/
def swapOutOfTree (t : PT) (node removeNode child parent : Nat) :
    PT × Nat × Nat :=
  if node ≠ eIdx then
    let r := swapNodePositionRemove t node removeNode child parent
    swapNodePositionRemove r.1 (dec64 r.1.size) node r.2.1 r.2.2
  else
    swapNodePositionRemove t (dec64 t.size) removeNode child parent

/-- `FlatRBTree::_minValueNode` inner loop (leftmost descent), with fuel. -/
def descLeftGo : Nat → PT → Nat → Nat
  | 0, _, node => node
  | f + 1, t, node =>
    let l := (nd t node).left
    if l ≠ eIdx then descLeftGo f t l else node

/-- `FlatRBTree::_minValueNode(node)`: leftmost node of the right subtree. -/
def minValueNode (t : PT) (node : Nat) : Nat :=
  descLeftGo (t.nodes.length + 1) t (nd t node).right

/-- Rightmost descent, used by `_last` and `_prev`. -/
def descRightGo : Nat → PT → Nat → Nat
  | 0, _, node => node
  | f + 1, t, node =>
    let r := (nd t node).right
    if r ≠ eIdx then descRightGo f t r else node

/-- `FlatRBTree::_fixInsert` loop body and loop, with fuel. -/
def fixInsertGo : Nat → PT → Nat → PT
  | 0, t, _ => t
  | f + 1, t, node =>
    if node ≠ t.root ∧ (nd t (nd t node).parent).color = false then
      let parent := (nd t node).parent
      let grandparent := (nd t parent).parent
      let uncle := if parent = (nd t grandparent).left then
                     (nd t grandparent).right else (nd t grandparent).left
      if uncle ≠ eIdx ∧ (nd t uncle).color = false then
        -- _updateInsertColors: grandparent RED, parent BLACK, uncle BLACK
        let t := modNd t grandparent (fun n => { n with color := false })
        let t := modNd t parent (fun n => { n with color := true })
        let t := modNd t uncle (fun n => { n with color := true })
        fixInsertGo f t grandparent
      else
        let s := if uncle ≠ eIdx then (swapNodePosition t uncle node, uncle)
                 else (t, node)
        let t := s.1
        let node := s.2
        let t :=
          if parent = (nd t grandparent).left then
            -- Left Tree Insert
            let t := if node = (nd t parent).right then (rotateLeft t parent).1
                     else t
            (rotateRight t grandparent).1
          else
            -- Right Tree Insert
            let t := if node = (nd t parent).left then (rotateRight t parent).1
                     else t
            (rotateLeft t grandparent).1
        let t := swapColor t parent grandparent
        fixInsertGo f t parent
    else t

/-- `FlatRBTree::_fixInsert(node)`: fix-up loop, then force the root black. -/
def fixInsert (t : PT) (node : Nat) : PT :=
  let t := fixInsertGo (t.nodes.length + 1) t node
  modNd t t.root (fun n => { n with color := true })

/-- One iteration of `FlatRBTree::_fixErase`; returns the new state, the new
`node`/`parent` cursors and whether the loop `break`s. -/
def fixEraseStep (t : PT) (node parent : Nat) : PT × Nat × Nat × Bool :=
  if node = (nd t parent).left then
    -- Left Tree Erase
    let sibling := (nd t parent).right
    let s :=
      if (nd t sibling).color = false then
        let t := modNd t sibling (fun n => { n with color := true })
        let t := modNd t parent (fun n => { n with color := false })
        let r := rotateLeft t parent
        (r.1, r.2, (nd r.1 r.2).right)
      else (t, parent, sibling)
    let t := s.1
    let parent := s.2.1
    let sibling := s.2.2
    if ((nd t sibling).left = eIdx ∨ (nd t (nd t sibling).left).color = true) ∧
       ((nd t sibling).right = eIdx ∨ (nd t (nd t sibling).right).color = true) then
      let t := modNd t sibling (fun n => { n with color := false })
      let node := parent
      let parent := (nd t node).parent
      (t, node, parent, false)
    else
      let s2 :=
        if (nd t sibling).right = eIdx ∨ (nd t (nd t sibling).right).color = true then
          let t := if (nd t sibling).left ≠ eIdx then
                     modNd t (nd t sibling).left (fun n => { n with color := true })
                   else t
          let t := modNd t sibling (fun n => { n with color := false })
          let t := (rotateRight t sibling).1
          (t, (nd t parent).right)
        else (t, sibling)
      let t := s2.1
      let sibling := s2.2
      let t := modNd t sibling (fun n => { n with color := (nd t parent).color })
      let t := modNd t parent (fun n => { n with color := true })
      let t := if (nd t sibling).right ≠ eIdx then
                 modNd t (nd t sibling).right (fun n => { n with color := true })
               else t
      let t := (rotateLeft t parent).1
      (t, t.root, parent, true)
  else
    -- Right Tree Erase
    let sibling := (nd t parent).left
    let s :=
      if (nd t sibling).color = false then
        let t := modNd t sibling (fun n => { n with color := true })
        let t := modNd t parent (fun n => { n with color := false })
        let r := rotateRight t parent
        (r.1, r.2, (nd r.1 r.2).left)
      else (t, parent, sibling)
    let t := s.1
    let parent := s.2.1
    let sibling := s.2.2
    if ((nd t sibling).left = eIdx ∨ (nd t (nd t sibling).left).color = true) ∧
       ((nd t sibling).right = eIdx ∨ (nd t (nd t sibling).right).color = true) then
      let t := modNd t sibling (fun n => { n with color := false })
      let node := parent
      let parent := (nd t node).parent
      (t, node, parent, false)
    else
      let s2 :=
        if (nd t sibling).left = eIdx ∨ (nd t (nd t sibling).left).color = true then
          let t := if (nd t sibling).right ≠ eIdx then
                     modNd t (nd t sibling).right (fun n => { n with color := true })
                   else t
          let t := modNd t sibling (fun n => { n with color := false })
          let t := (rotateLeft t sibling).1
          (t, (nd t parent).left)
        else (t, sibling)
      let t := s2.1
      let sibling := s2.2
      let t := modNd t sibling (fun n => { n with color := (nd t parent).color })
      let t := modNd t parent (fun n => { n with color := true })
      let t := if (nd t sibling).left ≠ eIdx then
                 modNd t (nd t sibling).left (fun n => { n with color := true })
               else t
      let t := (rotateRight t parent).1
      (t, t.root, parent, true)

/-- `FlatRBTree::_fixErase` while loop, with fuel. -/
def fixEraseGo : Nat → PT → Nat → Nat → PT × Nat
  | 0, t, node, _ => (t, node)
  | f + 1, t, node, parent =>
    if node ≠ t.root ∧ (node = eIdx ∨ (nd t node).color = true) then
      let r := fixEraseStep t node parent
      if r.2.2.2 then (r.1, r.2.1)
      else fixEraseGo f r.1 r.2.1 r.2.2.1
    else (t, node)

/-- `FlatRBTree::_fixErase(node, parent)`. -/
def fixErase (t : PT) (node parent : Nat) : PT :=
  let r := fixEraseGo (t.nodes.length + 1) t node parent
  let t := r.1
  let node := r.2
  if node ≠ eIdx then modNd t node (fun n => { n with color := true }) else t

/-- `FlatRBTree::_erase(key)`: locate, splice out (single-child case) or
substitute the in-order successor (two-children case), compact storage via
`_swapOutOfTree`, then run the erase fix-up when a black node was removed. -/
def eraseOp (t0 : PT) (key : Nat) : PT × Bool :=
  let eraseIndex := findIndex t0 key
  if eraseIndex = eIdx then (t0, false) else
  let color := (nd t0 eraseIndex).color
  let parent := (nd t0 eraseIndex).parent
  if (nd t0 eraseIndex).left = eIdx ∨ (nd t0 eraseIndex).right = eIdx then
    let child := if (nd t0 eraseIndex).left = eIdx then (nd t0 eraseIndex).right
                 else (nd t0 eraseIndex).left
    let t := updateParent t0 child (nd t0 eraseIndex).parent
    let t := updateParentChild t child parent eraseIndex
    let r := swapOutOfTree t child eraseIndex child parent
    let t := r.1
    let child := r.2.1
    let parent := r.2.2
    let t := if color = true then fixErase t child parent else t
    ({ t with size := dec64 t.size }, true)
  else
    let minNode := minValueNode t0 eraseIndex
    let child := (nd t0 minNode).right
    let parent := (nd t0 minNode).parent
    let color := (nd t0 minNode).color
    let t := updateParent t0 child parent
    let s :=
      if parent = eraseIndex then
        (modNd t parent (fun n => { n with right := child }), minNode)
      else
        (modNd t parent (fun n => { n with left := child }), parent)
    let t := s.1
    let parent := s.2
    let t := transferData t minNode eraseIndex
    let t := updateParentChild t minNode (nd t eraseIndex).parent eraseIndex
    let t := modNd t (nd t eraseIndex).left (fun n => { n with parent := minNode })
    let t := updateParent t (nd t eraseIndex).right minNode
    let r := swapOutOfTree t minNode eraseIndex child parent
    let t := r.1
    let child := r.2.1
    let parent := r.2.2
    let t := if color = true then fixErase t child parent else t
    ({ t with size := dec64 t.size }, true)

/-- `FlatRBTree::_emplace(key, value)` (the map overload; the set overload is
identical minus the value). Returns the new state, the index of the returned
iterator, and the `inserted` flag; `_validateSize` throwing is `Except.error`. -/
def emplaceOp (t0 : PT) (key val : Nat) : Except String (PT × Nat × Bool) :=
  if t0.size = eIdx then .error "Size exceeds max capacity of size type." else
  let insertIndex := t0.size
  let r := findInsertLocation t0 key
  if r.2 = false then .ok (t0, r.1, false) else
  let parent := r.1
  let t := resizeTree t0 0
  let t := wr t t.size
    { key := key, val := val, parent := parent, left := eIdx, right := eIdx,
      color := false }
  let t := { t with size := t.size + 1 }
  if insertIndex = 0 then
    let t := { t with root := insertIndex }
    let t := modNd t t.root (fun n => { n with color := true })
    .ok (t, insertIndex, true)
  else
    let t := insertUpdateParentRoot t key parent insertIndex
    let t := fixInsert t insertIndex
    .ok (t, findIndex t key, true)

/-- `FlatRBTree::_first()`: leftmost node from the root. -/
def firstIdx (t : PT) : Nat :=
  if t.root ≠ eIdx then descLeftGo (t.nodes.length + 1) t t.root else t.root

/-- `FlatRBTree::_last()`: rightmost node from the root. -/
def lastIdx (t : PT) : Nat :=
  if t.root ≠ eIdx then descRightGo (t.nodes.length + 1) t t.root else t.root

/-- Backtracking loop of `_next`: `while ((parent = tree_[node].parent_) &&
parent != empty_index_ && node == tree_[parent].right_) node = parent;`
(note the truthiness test, which also stops when the parent is slot 0). -/
def backtrackNextGo : Nat → PT → Nat → Nat
  | 0, t, node => (nd t node).parent
  | f + 1, t, node =>
    let parent := (nd t node).parent
    if parent ≠ 0 ∧ parent ≠ eIdx ∧ node = (nd t parent).right then
      backtrackNextGo f t parent
    else parent

/-- Backtracking loop of `_prev`, mirror of `backtrackNextGo`. -/
def backtrackPrevGo : Nat → PT → Nat → Nat
  | 0, t, node => (nd t node).parent
  | f + 1, t, node =>
    let parent := (nd t node).parent
    if parent ≠ 0 ∧ parent ≠ eIdx ∧ node = (nd t parent).left then
      backtrackPrevGo f t parent
    else parent

/-- `FlatRBTree::_next(node)`: in-order successor, except that the source
first returns the sentinel outright when `node == size_ - 1`. -/
def nextIdx (t : PT) (node : Nat) : Nat :=
  if node = dec64 t.size ∨ node = eIdx then eIdx
  else if (nd t node).right ≠ eIdx then
    descLeftGo (t.nodes.length + 1) t (nd t node).right
  else backtrackNextGo (t.nodes.length + 1) t node

/-- `FlatRBTree::_prev(node)`: in-order predecessor, with the same
`node == size_ - 1` early return as `_next`. -/
def prevIdx (t : PT) (node : Nat) : Nat :=
  if node = dec64 t.size ∨ node = eIdx then eIdx
  else if (nd t node).left ≠ eIdx then
    descRightGo (t.nodes.length + 1) t (nd t node).left
  else backtrackPrevGo (t.nodes.length + 1) t node

/-- Keys visited by forward iteration `begin()`, `++`, ... until `end()`
(bounded by fuel; one beyond the node count suffices for terminating runs). -/
def iterFwdGo : Nat → PT → Nat → List Nat
  | 0, _, _ => []
  | f + 1, t, i =>
    if i = eIdx then [] else (nd t i).key :: iterFwdGo f t (nextIdx t i)

/-- Forward iteration of the full container. -/
def iterFwd (t : PT) : List Nat := iterFwdGo (t.nodes.length + 1) t (firstIdx t)

/-- Keys visited by reverse iteration `rbegin()`, `++`, ... until `rend()`. -/
def iterRevGo : Nat → PT → Nat → List Nat
  | 0, _, _ => []
  | f + 1, t, i =>
    if i = eIdx then [] else (nd t i).key :: iterRevGo f t (prevIdx t i)

/-- Reverse iteration of the full container. -/
def iterRev (t : PT) : List Nat := iterRevGo (t.nodes.length + 1) t (lastIdx t)

/-- `FlatRBTree::extract(key)`: `tree_[_find_index(key)]`, a raw vector read;
`none` models the out-of-bounds access `tree_[empty_index_]`. -/
def extractOp (t : PT) (key : Nat) : Option PNode :=
  t.nodes.get? (findIndex t key)

/-- `FlatRBTree::merge(source)`: `_emplace` every slot `0 ≤ i < source.size_`
of the source into the destination; the source itself is only read. -/
def mergeOp (t : PT) (source : PT) : PT :=
  (List.range source.size).foldl
    (fun acc i =>
      match emplaceOp acc (nd source i).key (nd source i).val with
      | .ok r => r.1
      | .error _ => acc)
    t

/-- Insert a key (ignoring a sizing exception, which cannot occur in any of
the concrete runs below). -/
def insK (t : PT) (k : Nat) : PT :=
  match emplaceOp t k 0 with
  | .ok r => r.1
  | .error _ => t

/-- Run a list of operations: `(true, k)` inserts `k`, `(false, k)` erases. -/
def runOps (t : PT) (ops : List (Bool × Nat)) : PT :=
  ops.foldl (fun acc op => if op.1 then insK acc op.2 else (eraseOp acc op.2).1) t

end DroFlat

namespace DroHash

open DroFlat (eIdx dec64)

/-! ## Embedding of `dro::detail::hash_flat_base` (hash_flat_map.hpp)

Fixed instantiation (the one used by the repository's own tests): keys and
values are naturals, `Compare` is `<`, `KeyEqual` is `=`, and `Hash` is
`std::hash` over an integral key, which is the identity function in
libstdc++.  The three `float` members keep their defaults
(`load_factor_ = 1.0f`, `hashable_ratio_ = 0.9f`, `growth_multiple_ = 2.0f`)
and float arithmetic is modelled exactly by rounding rationals to the
nearest 24-bit-significand value (round half to even). -/

/-- Base-2 integer logarithm by structural recursion (the fuel of 128
exceeds the bit length of every number this program produces), so that
kernel reduction works where `Nat.log2`, defined by well-founded recursion,
would be stuck. -/
def log2go : Nat → Nat → Nat
  | 0, _ => 0
  | f + 1, n => if 2 ≤ n then log2go f (n / 2) + 1 else 0

/-- `⌊log2 n⌋` (0 for `n = 0`). -/
def log2b (n : Nat) : Nat := log2go 128 n

/-- A nonnegative dyadic rational `m / 2^k`.  Every `float` value this
program manipulates is such a number, so IEEE single-precision arithmetic
is modelled exactly on this representation. -/
structure Dy where
  m : Nat
  k : Nat
deriving Repr, DecidableEq

/-- Round a nonnegative dyadic to the nearest IEEE single-precision value
(24-bit significand, round half to even; the exponent range is never
exceeded by this program's values). -/
def froundD (x : Dy) : Dy :=
  if x.m = 0 then ⟨0, 0⟩ else
  let L := log2b x.m
  if L ≤ 23 then x else
  let d := L - 23
  let fl := x.m / 2 ^ d
  let rem := x.m % 2 ^ d
  let half := 2 ^ (d - 1)
  let mant := if rem < half then fl
              else if half < rem then fl + 1
              else if fl % 2 = 0 then fl else fl + 1
  if x.k ≤ d then ⟨mant * 2 ^ (d - x.k), 0⟩ else ⟨mant, x.k - d⟩

/-- `static_cast<float>(n)` for a natural `n`. -/
def fOfNat (n : Nat) : Dy := froundD ⟨n, 0⟩

/-- Single-precision multiplication. -/
def fmul (a b : Dy) : Dy := froundD ⟨a.m * b.m, a.k + b.k⟩

/-- Single-precision division by `2.0f` (`growth_multiple_`), which is an
exact exponent shift followed by rounding. -/
def fdiv2 (a : Dy) : Dy := froundD ⟨a.m, a.k + 1⟩

/-- Single-precision comparison `a < b`. -/
def fltD (a b : Dy) : Bool := a.m * 2 ^ b.k < b.m * 2 ^ a.k

/-- The float literal `0.9F` (`hashable_ratio_`): the nearest single to
9/10 is `15099494 * 2^-24` (9/10 scaled by `2^24` is `15099494.4`). -/
def f09 : Dy := ⟨15099494, 24⟩

/-- The float literal `1.0F` (`load_factor_`). -/
def f1 : Dy := ⟨1, 0⟩

/-- The float literal `2.0F` (`growth_multiple_`). -/
def f2 : Dy := ⟨2, 0⟩

/-- `static_cast<size_type>(x)` for a nonnegative float value: truncation. -/
def ftruncNat (x : Dy) : Nat := x.m / 2 ^ x.k

/-- Fingerprint/full/colour word helpers (`fingerprint_full_clr_`): bit 0 is
the full flag, bit 1 the colour (1 = BLACK), bits 2.. the fingerprint. -/
def getFull (w : Nat) : Bool := w % 2 = 1

/-- `_get_color`: bit 1 (true = BLACK). -/
def getClr (w : Nat) : Bool := w / 2 % 2 = 1

/-- `_get_fingerprint`: `w >> 2`. -/
def getFp (w : Nat) : Nat := w / 4

/-- `_set_color` (also covering `_set_red`/`_set_black`). -/
def setClrW (w : Nat) (c : Bool) : Nat := 4 * (w / 4) + w % 2 + (if c then 2 else 0)

/-- `_set_empty`: clear bit 0. -/
def setEmptyW (w : Nat) : Nat := w - w % 2

/-- `_set_fingerprint(w, hash)`: `w = hash`, then `_set_red`, `_set_full`. -/
def setFpW (hash : Nat) : Nat := 4 * (hash / 4) + 1

/-- Node record of `dro::detail::flatnode` (all members value-initialised to
zero, including the tree links — unlike the plain tree's nodes). -/
structure HNode where
  key : Nat := 0
  val : Nat := 0
  fpc : Nat := 0
  next : Nat := 0
  parent : Nat := 0
  left : Nat := 0
  right : Nat := 0
deriving Repr, DecidableEq

/-- The default-constructed hybrid node. -/
def dfltH : HNode := { key := 0 }

/-- State of a `dro::detail::hash_flat_base`. -/
structure HT where
  size : Nat := 0
  collisionHead : Nat := 0
  collisionTail : Nat := 0
  capacity : Nat := 0
  hashableCapacity : Nat := 0
  root : Nat := eIdx
  firstCache : Nat := eIdx
  lastCache : Nat := eIdx
  nodes : List HNode := []
deriving Repr, DecidableEq

/-- Read `tree_[i]` (out-of-bounds concretised as a default node). -/
def hnd (t : HT) (i : Nat) : HNode := t.nodes.getD i dfltH

/-- Write `tree_[i] = n` (out-of-bounds concretised as a no-op). -/
def hwr (t : HT) (i : Nat) (n : HNode) : HT := { t with nodes := t.nodes.set i n }

/-- Modify the node at slot `i` in place. -/
def hmod (t : HT) (i : Nat) (f : HNode → HNode) : HT := hwr t i (f (hnd t i))

/-- Set the colour bit of slot `i`. -/
def setClr (t : HT) (i : Nat) (c : Bool) : HT :=
  hmod t i (fun n => { n with fpc := setClrW n.fpc c })

/-- The `hash_flat_base(capacity)` constructor.  It throws `invalid_argument`
only for `capacity < 1`; the `if (capacity == empty_index_) {}` check in the
source has an empty body and rejects nothing. -/
def mkHT (capacity : Nat) : Except String HT :=
  if capacity < 1 then .error "Capacity must be positive number." else
  let hc := ftruncNat (fmul (fOfNat capacity) f09)
  .ok { size := 0, capacity := capacity, hashableCapacity := hc,
        collisionHead := hc, collisionTail := hc,
        root := eIdx, firstCache := eIdx, lastCache := eIdx,
        nodes := List.replicate (capacity + 1) dfltH }

/-- `_index_from_hash`: mask the hash with `~0 >> clz(hashable_capacity_)`
and fold the overhang back below `hashable_capacity_`. -/
def indexFromHash (t : HT) (hash : Nat) : Nat :=
  let idx := hash % 2 ^ (log2b t.hashableCapacity + 1)
  if idx ≥ t.hashableCapacity then idx - t.hashableCapacity else idx

/-- `_find` chain walk, with fuel; returns `(found index or sentinel,
previous-in-chain index)`. -/
def findGoH : Nat → HT → Nat → Nat → Nat → Nat × Nat
  | 0, _, _, prev, _ => (eIdx, prev)
  | f + 1, t, index, prev, key =>
    let bucket := hnd t index
    if getFull bucket.fpc ∧ getFp key = getFp bucket.fpc ∧ bucket.key = key then
      (index, prev)
    else if bucket.next = 0 then (eIdx, prev)
    else findGoH f t bucket.next index key

/-- `hash_flat_base::_find(key)` (hash lookup; the tree is not consulted). -/
def hfind (t : HT) (key : Nat) : Nat × Nat :=
  findGoH (t.nodes.length + 1) t (indexFromHash t key) 0 key

/-- The duplicate-scan of `_emplace_hashmap` (the do-while loop): returns
`none` if the key was found (the function then reports a duplicate) and
`some prev` (the chain tail) otherwise. -/
def dupScanGo : Nat → HT → Nat → Nat → Nat → Option Nat
  | 0, _, _, prev, _ => some prev
  | f + 1, t, chainNode, _prev, key =>
    let bucket := hnd t chainNode
    if getFp key = getFp bucket.fpc ∧ bucket.key = key then none
    else if bucket.next = 0 then some chainNode
    else dupScanGo f t bucket.next chainNode key

/-- `_check_cached_extrema(key, insert_index)`: maintain the extrema caches
and return the ready-made parent slot (or the sentinel). -/
def checkCachedExtrema (t : HT) (key insertIndex : Nat) : HT × Nat :=
  if t.lastCache = eIdx then
    ({ t with firstCache := insertIndex, lastCache := insertIndex }, eIdx)
  else if key < (hnd t t.firstCache).key then
    ({ t with firstCache := insertIndex }, t.firstCache)
  else if (hnd t t.lastCache).key < key then
    ({ t with lastCache := insertIndex }, t.lastCache)
  else (t, eIdx)

/-- `_find_parent_location(key)`: plain BST descent to the insertion parent. -/
def findParentGoH : Nat → HT → Nat → Nat → Nat → Nat
  | 0, _, _, parent, _ => parent
  | f + 1, t, node, parent, key =>
    if node = eIdx then parent
    else if key < (hnd t node).key then findParentGoH f t (hnd t node).left node key
    else findParentGoH f t (hnd t node).right node key

/-- `_find_parent_location` from the root. -/
def findParentLocation (t : HT) (key : Nat) : Nat :=
  findParentGoH (t.nodes.length + 1) t t.root eIdx key

/-- `_update_parent`: link the fresh slot under its parent. -/
def updateParentH (t : HT) (key parent insertIndex : Nat) : HT :=
  if key < (hnd t parent).key then
    hmod t parent (fun n => { n with left := insertIndex })
  else
    hmod t parent (fun n => { n with right := insertIndex })

/-- `_rotate_left(index)`: pointer-based left rotation (`_rotate_parents`
inlined in source order). -/
def rotateLeftH (t : HT) (index : Nat) : HT :=
  let child := (hnd t index).right
  let indexRight := (hnd t child).left
  let t := hmod t index (fun n => { n with right := indexRight })
  let t := if indexRight ≠ eIdx then
             hmod t indexRight (fun n => { n with parent := index }) else t
  let parent := (hnd t index).parent
  let t := hmod t child (fun n => { n with parent := parent })
  let t := if parent = eIdx then { t with root := child }
           else if (hnd t parent).left = index then
             hmod t parent (fun n => { n with left := child })
           else hmod t parent (fun n => { n with right := child })
  let t := hmod t child (fun n => { n with left := index })
  hmod t index (fun n => { n with parent := child })

/-- `_rotate_right(index)`: mirror of `rotateLeftH`. -/
def rotateRightH (t : HT) (index : Nat) : HT :=
  let child := (hnd t index).left
  let indexLeft := (hnd t child).right
  let t := hmod t index (fun n => { n with left := indexLeft })
  let t := if indexLeft ≠ eIdx then
             hmod t indexLeft (fun n => { n with parent := index }) else t
  let parent := (hnd t index).parent
  let t := hmod t child (fun n => { n with parent := parent })
  let t := if parent = eIdx then { t with root := child }
           else if (hnd t parent).left = index then
             hmod t parent (fun n => { n with left := child })
           else hmod t parent (fun n => { n with right := child })
  let t := hmod t child (fun n => { n with right := index })
  hmod t index (fun n => { n with parent := child })

/-- `_fix_insert` while loop, with fuel (`parent` is loop-carried exactly as
in the source). -/
def fixInsertGoH : Nat → HT → Nat → Nat → HT
  | 0, t, _, _ => t
  | f + 1, t, node, parent =>
    if node ≠ t.root ∧ getClr (hnd t node).fpc = false ∧
       getClr (hnd t parent).fpc = false then
      let grandparent := (hnd t parent).parent
      let uncle := if parent = (hnd t grandparent).left then
                     (hnd t grandparent).right else (hnd t grandparent).left
      let s :=
        if uncle ≠ eIdx ∧ getClr (hnd t uncle).fpc = false then
          -- _update_colors: grandparent RED, parent BLACK, uncle BLACK
          let t := setClr t grandparent false
          let t := setClr t parent true
          let t := setClr t uncle true
          (t, grandparent)
        else
          let s2 :=
            if parent = (hnd t grandparent).left then
              -- Left Tree Insert
              let inner := node = (hnd t parent).right
              let t := if inner then rotateLeftH t parent else t
              let node0 := node
              let node := if inner then parent else node
              let parent := if inner then node0 else parent
              (rotateRightH t grandparent, node, parent)
            else
              -- Right Tree Insert
              let inner := node = (hnd t parent).left
              let t := if inner then rotateRightH t parent else t
              let node0 := node
              let node := if inner then parent else node
              let parent := if inner then node0 else parent
              (rotateLeftH t grandparent, node, parent)
          let t := s2.1
          let parent := s2.2.2
          let pc := getClr (hnd t parent).fpc
          let gc := getClr (hnd t grandparent).fpc
          let t := setClr t grandparent pc
          let t := setClr t parent gc
          (t, parent)
      fixInsertGoH f s.1 s.2 (hnd s.1 s.2).parent
    else t

/-- `_fix_insert(node)`: fix-up loop, then force the root black. -/
def fixInsertH (t : HT) (node : Nat) : HT :=
  let t := fixInsertGoH (t.nodes.length + 1) t node (hnd t node).parent
  hmod t t.root (fun n => { n with fpc := setClrW n.fpc true })

end DroHash

namespace DroHash

open DroFlat (eIdx dec64)

/-- `_swap_node_position(index_keep, index_remove)`: promote the chain
successor's record into the vacated home slot, repairing caches and links.
Note the two sequential root checks of the source: when `root_ ==
index_keep` they first set it to `index_remove` and then the second check
immediately sets it back. -/
def swapNodePositionH (t0 : HT) (indexKeep indexRemove : Nat) : HT :=
  -- Update cached indexes
  let t := if indexKeep = t0.firstCache then { t0 with firstCache := indexRemove }
           else t0
  let t := if indexKeep = t.lastCache then { t with lastCache := indexRemove }
           else t
  let parentKeep := (hnd t indexKeep).parent
  let leftKeep := (hnd t indexKeep).left
  let rightKeep := (hnd t indexKeep).right
  let parentRemove := (hnd t indexRemove).parent
  let leftRemove := (hnd t indexRemove).left
  let rightRemove := (hnd t indexRemove).right
  -- Swap Parent Index
  let t := if parentKeep ≠ eIdx then
             (if (hnd t parentKeep).left = indexKeep then
                hmod t parentKeep (fun n => { n with left := indexRemove })
              else hmod t parentKeep (fun n => { n with right := indexRemove }))
           else t
  let t := if parentRemove ≠ eIdx then
             (if (hnd t parentRemove).left = indexRemove then
                hmod t parentRemove (fun n => { n with left := indexKeep })
              else hmod t parentRemove (fun n => { n with right := indexKeep }))
           else t
  -- Check if Nodes are related
  let t := if parentKeep = indexRemove then
             hmod t indexKeep (fun n => { n with parent := indexKeep }) else t
  let t := if parentRemove = indexKeep then
             hmod t indexRemove (fun n => { n with parent := indexRemove }) else t
  -- Swap Children Index
  let t := if leftKeep ≠ eIdx then
             hmod t leftKeep (fun n => { n with parent := indexRemove }) else t
  let t := if rightKeep ≠ eIdx then
             hmod t rightKeep (fun n => { n with parent := indexRemove }) else t
  let t := if leftRemove ≠ eIdx then
             hmod t leftRemove (fun n => { n with parent := indexKeep }) else t
  let t := if rightRemove ≠ eIdx then
             hmod t rightRemove (fun n => { n with parent := indexKeep }) else t
  -- Update Root if in swap (two sequential ifs, exactly as in the source)
  let t := if t.root = indexKeep then { t with root := indexRemove } else t
  let t := if t.root = indexRemove then { t with root := indexKeep } else t
  -- Swap vector position
  let x := hnd t indexKeep
  let y := hnd t indexRemove
  let t := hwr t indexKeep y
  hwr t indexRemove x

/-- `_erase_hashmap(erase_index&, prev_index)`: unlink from the hash chain,
promote the chain successor into a vacated home slot, and return the freed
slot to the collision free list.  Returns the updated state and the updated
by-reference `erase_index`. -/
def eraseHashmap (t : HT) (eraseIndex prevIndex : Nat) : HT × Nat :=
  let next := (hnd t eraseIndex).next
  if eraseIndex < t.hashableCapacity ∧ next = 0 then
    (hmod t eraseIndex (fun n => { n with fpc := setEmptyW n.fpc }), eraseIndex)
  else
    let s :=
      if eraseIndex < t.hashableCapacity then
        (swapNodePositionH t next eraseIndex, next)
      else
        (hmod t prevIndex (fun n => { n with next := next }), eraseIndex)
    let t := s.1
    let eraseIndex := s.2
    let t := hmod t eraseIndex (fun n => { n with fpc := setEmptyW n.fpc })
    let t := hmod t eraseIndex (fun n => { n with next := 0 })
    -- Add to collision linked list
    let t := hmod t t.collisionTail (fun n => { n with next := eraseIndex })
    ({ t with collisionTail := eraseIndex }, eraseIndex)

/-- `_transfer_node_data(min_index, erase_index)`: copy parent, colour and
children of the erased slot onto the successor slot. -/
def transferNodeDataH (t : HT) (minIndex eraseIndex : Nat) : HT :=
  let t := hmod t minIndex (fun n => { n with parent := (hnd t eraseIndex).parent })
  let t := setClr t minIndex (getClr (hnd t eraseIndex).fpc)
  let t := hmod t minIndex (fun n => { n with left := (hnd t eraseIndex).left })
  hmod t minIndex (fun n => { n with right := (hnd t eraseIndex).right })

/-- `_assign_parent(index, parent)`. -/
def assignParentH (t : HT) (index parent : Nat) : HT :=
  if index ≠ eIdx then hmod t index (fun n => { n with parent := parent }) else t

/-- `_update_children(child, parent, erase_index)`. -/
def updateChildrenH (t : HT) (child parent eraseIndex : Nat) : HT :=
  if parent = eIdx then { t with root := child }
  else if (hnd t parent).left = eraseIndex then
    hmod t parent (fun n => { n with left := child })
  else hmod t parent (fun n => { n with right := child })

/-- `_min_value_index(index)`: leftmost slot of the right subtree. -/
def minValueGoH : Nat → HT → Nat → Nat
  | 0, _, index => index
  | f + 1, t, index =>
    let l := (hnd t index).left
    if l ≠ eIdx then minValueGoH f t l else index

/-- `_min_value_index` driver. -/
def minValueIndexH (t : HT) (index : Nat) : Nat :=
  minValueGoH (t.nodes.length + 1) t (hnd t index).right

/-- `_check_sibling_red(sibling&, parent&, is_left)`: a red sibling is
recoloured and rotated away; returns updated state and sibling. -/
def checkSiblingRed (t : HT) (sibling parent : Nat) (isLeft : Bool) : HT × Nat :=
  if getClr (hnd t sibling).fpc = false then
    let t := setClr t sibling true
    let t := setClr t parent false
    if isLeft then
      let t := rotateLeftH t parent
      (t, (hnd t parent).right)
    else
      let t := rotateRightH t parent
      (t, (hnd t parent).left)
  else (t, sibling)

/-- `_check_sibling_black(sibling_node, index&, parent&)`: both of the
sibling's children black (or absent) → recolour and ascend.  Returns
`(state, index, parent, ascended?)`. -/
def checkSiblingBlack (t : HT) (sibling index parent : Nat) :
    HT × Nat × Nat × Bool :=
  if ((hnd t sibling).left = eIdx ∨ getClr (hnd t (hnd t sibling).left).fpc = true) ∧
     ((hnd t sibling).right = eIdx ∨ getClr (hnd t (hnd t sibling).right).fpc = true) then
    let t := setClr t sibling false
    let index := parent
    let parent := (hnd t index).parent
    (t, index, parent, true)
  else (t, index, parent, false)

/-- `_fix_erase_left(sibling_node, sibling&, parent&)`. -/
def fixEraseLeft (t : HT) (sibling parent : Nat) : HT × Nat :=
  let s :=
    if (hnd t sibling).right = eIdx ∨ getClr (hnd t (hnd t sibling).right).fpc = true then
      let t := if (hnd t sibling).left ≠ eIdx then
                 setClr t (hnd t sibling).left true else t
      let t := setClr t sibling false
      let t := rotateRightH t sibling
      (t, (hnd t parent).right)
    else (t, sibling)
  let t := s.1
  let sibling := s.2
  let t := setClr t sibling (getClr (hnd t parent).fpc)
  let t := setClr t parent true
  let t := if (hnd t sibling).right ≠ eIdx then
             setClr t (hnd t sibling).right true else t
  (t, sibling)

/-- `_fix_erase_right(sibling_node, sibling&, parent&)`. -/
def fixEraseRight (t : HT) (sibling parent : Nat) : HT × Nat :=
  let s :=
    if (hnd t sibling).left = eIdx ∨ getClr (hnd t (hnd t sibling).left).fpc = true then
      let t := if (hnd t sibling).right ≠ eIdx then
                 setClr t (hnd t sibling).right true else t
      let t := setClr t sibling false
      let t := rotateLeftH t sibling
      (t, (hnd t parent).left)
    else (t, sibling)
  let t := s.1
  let sibling := s.2
  let t := setClr t sibling (getClr (hnd t parent).fpc)
  let t := setClr t parent true
  let t := if (hnd t sibling).left ≠ eIdx then
             setClr t (hnd t sibling).left true else t
  (t, sibling)

/-- `_fix_erase` while loop, with fuel. -/
def fixEraseGoH : Nat → HT → Nat → Nat → HT × Nat
  | 0, t, index, _ => (t, index)
  | f + 1, t, index, parent =>
    if index ≠ t.root ∧ (index = eIdx ∨ getClr (hnd t index).fpc = true) then
      let isLeft := index = (hnd t parent).left
      let sibling := if isLeft then (hnd t parent).right else (hnd t parent).left
      let s := checkSiblingRed t sibling parent isLeft
      let t := s.1
      let sibling := s.2
      let b := checkSiblingBlack t sibling index parent
      if b.2.2.2 then fixEraseGoH f b.1 b.2.1 b.2.2.1
      else
        let t := b.1
        let s2 := if isLeft then
                    let r := fixEraseLeft t sibling parent
                    (rotateLeftH r.1 parent)
                  else
                    let r := fixEraseRight t sibling parent
                    (rotateRightH r.1 parent)
        (s2, s2.root)
    else (t, index)

/-- `_fix_erase(index, parent)`. -/
def fixEraseH (t : HT) (index parent : Nat) : HT :=
  let r := fixEraseGoH (t.nodes.length + 1) t index parent
  let t := r.1
  let index := r.2
  if index ≠ eIdx then setClr t index true else t

/-- `_next(index)`: in-order successor via child/parent pointers. -/
def nextGoH : Nat → HT → Nat → Nat → Nat × Nat
  | 0, t, index, _ => (index, (hnd t index).parent)
  | f + 1, t, index, parent =>
    if parent ≠ eIdx ∧ index = (hnd t parent).right then
      nextGoH f t parent (hnd t parent).parent
    else (index, parent)

/-- `_next(index)`. -/
def nextH (t : HT) (index : Nat) : Nat :=
  if index = eIdx then eIdx
  else if (hnd t index).right ≠ eIdx then
    minValueGoH (t.nodes.length + 1) t (hnd t index).right
  else
    let r := nextGoH (t.nodes.length + 1) t index (hnd t index).parent
    let index := r.1
    let parent := r.2
    if parent = t.root ∧ index = (hnd t parent).right then eIdx else parent

/-- Rightmost descent for `_prev`. -/
def maxValueGoH : Nat → HT → Nat → Nat
  | 0, _, index => index
  | f + 1, t, index =>
    let r := (hnd t index).right
    if r ≠ eIdx then maxValueGoH f t r else index

/-- `_prev(index)` backtracking loop. -/
def prevGoH : Nat → HT → Nat → Nat → Nat × Nat
  | 0, t, index, _ => (index, (hnd t index).parent)
  | f + 1, t, index, parent =>
    if parent ≠ eIdx ∧ index = (hnd t parent).left then
      prevGoH f t parent (hnd t parent).parent
    else (index, parent)

/-- `_prev(index)`: in-order predecessor. -/
def prevH (t : HT) (index : Nat) : Nat :=
  if index = eIdx then eIdx
  else if (hnd t index).left ≠ eIdx then
    maxValueGoH (t.nodes.length + 1) t (hnd t index).left
  else
    let r := prevGoH (t.nodes.length + 1) t index (hnd t index).parent
    let index := r.1
    let parent := r.2
    if parent = t.root ∧ index = (hnd t parent).left then eIdx else parent

/-- `_erase(key)` minus the `_fix_erase` trigger decision: the structural
unlink shared by both child-count cases, following the source line by line.
Returns `(state, removed colour, child, parent)` for the caller. -/
def eraseUnlink (t0 : HT) (eraseIndex : Nat) : HT × Bool × Nat × Nat :=
  let color := getClr (hnd t0 eraseIndex).fpc
  let parent := (hnd t0 eraseIndex).parent
  if (hnd t0 eraseIndex).left = eIdx ∨ (hnd t0 eraseIndex).right = eIdx then
    let child := if (hnd t0 eraseIndex).left = eIdx then (hnd t0 eraseIndex).right
                 else (hnd t0 eraseIndex).left
    let t := assignParentH t0 child (hnd t0 eraseIndex).parent
    let t := updateChildrenH t child parent eraseIndex
    (t, color, child, parent)
  else
    let minIndex := minValueIndexH t0 eraseIndex
    let child := (hnd t0 minIndex).right
    let parent := (hnd t0 minIndex).parent
    let color := getClr (hnd t0 minIndex).fpc
    let t := assignParentH t0 child parent
    let s :=
      if parent = eraseIndex then
        (hmod t parent (fun n => { n with right := child }), minIndex)
      else
        (hmod t parent (fun n => { n with left := child }), parent)
    let t := s.1
    let parent := s.2
    let t := transferNodeDataH t minIndex eraseIndex
    let t := updateChildrenH t minIndex (hnd t eraseIndex).parent eraseIndex
    let t := hmod t (hnd t eraseIndex).left (fun n => { n with parent := minIndex })
    let t := assignParentH t (hnd t eraseIndex).right minIndex
    (t, color, child, parent)

/-- `hash_flat_base::_erase(key)`: hash-side unlink, tree-side unlink,
fix-up, size decrement.  Returns `(state, erased?, upper_index)`. -/
def eraseOpH (t0 : HT) (key : Nat) : HT × Bool × Nat :=
  let fl := hfind t0 key
  let eraseIndex := fl.1
  if eraseIndex = eIdx then (t0, false, eIdx) else
  let upperIndex := nextH t0 eraseIndex
  let lowerIndex := prevH t0 eraseIndex
  let t := if upperIndex = eIdx then { t0 with lastCache := lowerIndex } else t0
  let t := if lowerIndex = eIdx then { t with firstCache := upperIndex } else t
  let r := eraseHashmap t eraseIndex fl.2
  let t := r.1
  let eraseIndex := r.2
  let u := eraseUnlink t eraseIndex
  let t := u.1
  let color := u.2.1
  let child := u.2.2.1
  let parent := u.2.2.2
  let t := if color = true then fixEraseH t child parent else t
  ({ t with size := dec64 t.size }, true, upperIndex)

end DroHash

namespace DroHash

open DroFlat (eIdx dec64)

/-- In-order walk of the hybrid tree by iterator (`begin()`/`_next`),
collecting `(key, value)` pairs; used by `_rehash`'s re-insertion loop. -/
def iterPairsGoH : Nat → HT → Nat → List (Nat × Nat)
  | 0, _, _ => []
  | f + 1, t, i =>
    if i = eIdx then []
    else ((hnd t i).key, (hnd t i).val) :: iterPairsGoH f t (nextH t i)

/-- All `(key, value)` pairs in iteration order. -/
def iterPairsH (t : HT) : List (Nat × Nat) :=
  iterPairsGoH (t.nodes.length + 1) t t.firstCache

/-- Bundle of the mutually recursive growth/insert operations at one fuel
level.  In the source, `_rehash` re-enters `insert`/`_emplace`, and a
failed bounds check re-enters `_emplace_hashmap`; the fuel strictly
decreases across those re-entries, and a plain structural recursion on the
fuel keeps every definition kernel-reducible. -/
structure HFns where
  vlf : HT → HT × Bool
  vcs : HT → HT × Bool
  reh : HT → Nat → HT
  emh : HT → Nat → HT × Nat × Bool
  emp : HT → Nat → Nat → Except String (HT × Nat × Bool)

/-- The operation bundle: `vlf` is `_validate_load_factor_bounds`, `vcs` is
`_validate_collision_space_bounds`, `reh` is `_rehash`, `emh` is
`_emplace_hashmap` and `emp` is `_emplace`, each transcribed line by line
from the source. -/
def hFns : Nat → HFns
  | 0 =>
    { vlf := fun t => (t, true), vcs := fun t => (t, true),
      reh := fun t _ => t, emh := fun t _ => (t, eIdx, false),
      emp := fun t _ _ => .ok (t, eIdx, false) }
  | fuel + 1 =>
    let prev := hFns fuel
    -- _validate_load_factor_bounds(): grow by growth_multiple_ (or saturate
    -- at the sentinel) and rehash when size_ + 1 exceeds capacity_ * load_factor_
    let vlf : HT → HT × Bool := fun t =>
      let capacityFloat := fOfNat t.capacity
      let maxCapacity := ftruncNat (fmul capacityFloat f1)
      if (t.size + 1) % 2 ^ 64 > maxCapacity then
        let newCapacity :=
          if fltD (fdiv2 (fOfNat eIdx)) (fOfNat t.capacity) then eIdx
          else ftruncNat (fmul capacityFloat f2)
        (prev.reh t newCapacity, false)
      else (t, true)
    -- _validate_collision_space_bounds()
    let vcs : HT → HT × Bool := fun t =>
      if t.collisionHead ≥ t.capacity then
        let capacityFloat := fOfNat t.capacity
        let newCapacity :=
          if fltD (fdiv2 (fOfNat eIdx)) (fOfNat t.capacity) then eIdx
          else ftruncNat (fmul capacityFloat f2)
        (prev.reh t newCapacity, false)
      else (t, true)
    -- _rehash(count): fresh container, re-insert in iteration order, swap
    let reh : HT → Nat → HT := fun t count =>
      match mkHT count with
      | .error _ => t
      | .ok other =>
        (iterPairsH t).foldl
          (fun o kv =>
            match prev.emp o kv.1 kv.2 with
            | .ok r => r.1
            | .error _ => o)
          other
    -- _emplace_hashmap(key)
    let emh : HT → Nat → HT × Nat × Bool := fun t key =>
      let keyHash := key
      let insertIndex := indexFromHash t keyHash
      if getFull (hnd t insertIndex).fpc then
        match dupScanGo (t.nodes.length + 1) t insertIndex 0 key with
        | none => (t, insertIndex, false)
        | some prevIndex =>
          -- Not in the hashmap, will 100% insert.
          let v := vlf t
          if v.2 = false then prev.emh v.1 key
          else
          let t := v.1
          if t.collisionTail = t.collisionHead then
            let c := vcs t
            if c.2 = false then prev.emh c.1 key
            else
              -- Insert at the end of the collisions vector
              let t := c.1
              let insertIndex := t.collisionHead
              let t := { t with collisionHead := t.collisionHead + 1,
                                collisionTail := t.collisionTail + 1 }
              -- Update chain
              let t := hmod t prevIndex (fun n => { n with next := insertIndex })
              let t := hmod t insertIndex
                (fun n => { n with fpc := setFpW keyHash, next := 0 })
              (t, insertIndex, true)
          else
            -- Fill in the empty slots
            let insertIndex := (hnd t t.collisionHead).next
            let t :=
              if insertIndex = t.collisionTail then
                { t with collisionTail := t.collisionHead }
              else
                hmod t t.collisionHead
                  (fun n => { n with next := (hnd t insertIndex).next })
            -- Update chain
            let t := hmod t prevIndex (fun n => { n with next := insertIndex })
            let t := hmod t insertIndex
              (fun n => { n with fpc := setFpW keyHash, next := 0 })
            (t, insertIndex, true)
      else
        let v := vlf t
        if v.2 = false then prev.emh v.1 key
        else
          let t := v.1
          let t := hmod t insertIndex
            (fun n => { n with fpc := setFpW keyHash, next := 0 })
          (t, insertIndex, true)
    -- _emplace(key, value)
    let emp : HT → Nat → Nat → Except String (HT × Nat × Bool) :=
      fun t key val =>
      let h := emh t key
      let t := h.1
      let insertIndex := h.2.1
      if h.2.2 = false then .ok (t, insertIndex, false) else
      if t.size = eIdx then .error "Size exceeds max capacity of size type." else
      let ce := checkCachedExtrema t key insertIndex
      let t := ce.1
      let parentIndex := if ce.2 = eIdx then findParentLocation t key else ce.2
      -- Create Node
      let t := hmod t insertIndex
        (fun n => { n with key := key, val := val, parent := parentIndex,
                           left := eIdx, right := eIdx })
      let t := { t with size := t.size + 1 }
      if t.root = eIdx then
        let t := { t with root := insertIndex }
        let t := hmod t t.root (fun n => { n with fpc := setClrW n.fpc true })
        .ok (t, insertIndex, true)
      else
        let t := updateParentH t key parentIndex insertIndex
        let t := fixInsertH t insertIndex
        .ok (t, insertIndex, true)
    { vlf := vlf, vcs := vcs, reh := reh, emh := emh, emp := emp }

/-- `_validate_load_factor_bounds()` at the given fuel. -/
def validateLoadFactor (fuel : Nat) (t : HT) : HT × Bool := (hFns fuel).vlf t

/-- `_validate_collision_space_bounds()` at the given fuel. -/
def validateCollisionSpace (fuel : Nat) (t : HT) : HT × Bool := (hFns fuel).vcs t

/-- `_rehash(count)` at the given fuel. -/
def rehashH (fuel : Nat) (t : HT) (count : Nat) : HT := (hFns fuel).reh t count

/-- `_emplace_hashmap(key)` at the given fuel. -/
def emplaceHashmap (fuel : Nat) (t : HT) (key : Nat) : HT × Nat × Bool :=
  (hFns fuel).emh t key

/-- `hash_flat_base::_emplace(key, value)` at the given fuel. -/
def emplaceOpH (fuel : Nat) (t : HT) (key val : Nat) :
    Except String (HT × Nat × Bool) :=
  (hFns fuel).emp t key val

/-- Default fuel for a hybrid operation: enough for every terminating run
(each retry multiplies the store size, and runs in these proofs are small). -/
def hFuel : Nat := 64

/-- Insert a key/value (ignoring the sizing exception, which cannot occur in
the concrete runs below). -/
def insH (t : HT) (k : Nat) : HT :=
  match emplaceOpH hFuel t k 0 with
  | .ok r => r.1
  | .error _ => t

/-- Run a list of operations on a hybrid container. -/
def runOpsH (t : HT) (ops : List (Bool × Nat)) : HT :=
  ops.foldl (fun acc op => if op.1 then insH acc op.2 else (eraseOpH acc op.2).1) t

/-- Run from a fresh container of the given capacity. -/
def runFromCap (cap : Nat) (ops : List (Bool × Nat)) : HT :=
  match mkHT cap with
  | .ok t => runOpsH t ops
  | .error _ => { }

/-- Keys in forward-iteration order (`begin()`/`_next`). -/
def iterFwdH (t : HT) : List Nat := (iterPairsH t).map (·.1)

/-- Keys in reverse-iteration order (`rbegin()`/`_prev`). -/
def iterRevGoH : Nat → HT → Nat → List Nat
  | 0, _, _ => []
  | f + 1, t, i =>
    if i = eIdx then [] else (hnd t i).key :: iterRevGoH f t (prevH t i)

/-- Reverse iteration of the full hybrid container. -/
def iterRevH (t : HT) : List Nat :=
  iterRevGoH (t.nodes.length + 1) t t.lastCache

/-- `hash_flat_base::extract(key)`: `_find` then a raw `tree_[index]` read;
`none` models the out-of-bounds access at the sentinel. -/
def extractOpH (t : HT) (key : Nat) : Option HNode :=
  t.nodes.get? (hfind t key).1

end DroHash

namespace DroFlat

/-- Insert a key with an explicit mapped value (ignoring the sizing
exception, which cannot occur in the concrete runs below). -/
def insKV (t : PT) (k v : Nat) : PT :=
  match emplaceOp t k v with
  | .ok r => r.1
  | .error _ => t

/-- Example container: the plain tree after inserting key 2. -/
def exT : PT := runOps (mkPT 1) [(true, 2)]

/-- The plain tree after inserting 5 then 3 (capacity grows 1 → 2). -/
def c2State : PT := runOps (mkPT 1) [(true, 5), (true, 3)]

/-- The plain tree after inserting the spec's Scenario A keys
[5, 3, 8, 1, 4, 7, 9]. -/
def c2RevState : PT := runOps (mkPT 1) ([5, 3, 8, 1, 4, 7, 9].map (fun k => (true, k)))

/-- Merge destination: a plain map with 1 ↦ 10 and 2 ↦ 20. -/
def mergeDest : PT := insKV (insKV (mkPT 4) 1 10) 2 20

/-- Merge source: a plain map with 2 ↦ 99 and 3 ↦ 30. -/
def mergeSrc : PT := insKV (insKV (mkPT 4) 2 99) 3 30

/-- The merge result `mergeDest.merge(mergeSrc)`. -/
def mergeRes : PT := mergeOp mergeDest mergeSrc

end DroFlat

namespace DroHash

open DroFlat (eIdx)

/-- Example hybrid container of capacity 16 (hashable capacity 14, bucket
mask 15) holding keys 1 and 17; both keys hash to home bucket 1, so key 17
lives in collision slot 14, chained behind slot 1. -/
def exH : HT := runFromCap 16 [(true, 1), (true, 17)]

/-- Hybrid container of capacity 16 after inserting the same-bucket keys
1, 17, 33 and erasing 1.  The insert fix-up makes slot 14 (key 17) the tree
root; erasing 1 promotes the chain successor out of home slot 1 via
`_swap_node_position`, whose two sequential root checks cancel each other,
leaving `root_` pointing at the freed slot. -/
def c1State : HT := runFromCap 16 [(true, 1), (true, 17), (true, 33), (false, 1)]

/-- Hybrid container of capacity 16 after inserting the same-bucket keys
33, 1, 17 and erasing 33 and then 17.  The erase of 33 swaps two slots that
are children of the same parent, which scrambles the tree; the erase of 17
then fails to re-point the cached maximum. -/
def c7State : HT :=
  runFromCap 16 [(true, 33), (true, 1), (true, 17), (false, 33), (false, 17)]

end DroHash

namespace DroFlat

theorem findIndexGo_key (f : Nat) (t : PT) (node key : Nat)
    (h : findIndexGo f t node key ≠ eIdx) :
    (nd t (findIndexGo f t node key)).key = key := by
  induction f generalizing node with
  | zero => simp [findIndexGo] at h
  | succ f ih =>
    rw [findIndexGo] at h ⊢
    by_cases h1 : node = eIdx
    · simp [h1] at h
    · simp only [if_neg h1] at h ⊢
      by_cases h2 : (nd t node).key = key
      · simp [h2]
      · simp only [if_neg h2] at h ⊢
        by_cases h3 : (nd t node).key < key
        · simp only [if_pos h3] at h ⊢; exact ih _ h
        · simp only [if_neg h3] at h ⊢; exact ih _ h

theorem findIndex_key (t : PT) (k : Nat) (h : findIndex t k ≠ eIdx) :
    (nd t (findIndex t k)).key = k :=
  findIndexGo_key _ _ _ _ h

theorem eraseOp_absent (t : PT) (k : Nat) (h : findIndex t k = eIdx) :
    eraseOp t k = (t, false) := by
  rw [eraseOp]
  simp [h]

end DroFlat

namespace DroHash

open DroFlat (eIdx dec64)

theorem findGoH_key (f : Nat) (t : HT) (index prev key : Nat)
    (h : (findGoH f t index prev key).1 ≠ eIdx) :
    (hnd t (findGoH f t index prev key).1).key = key := by
  induction f generalizing index prev with
  | zero => simp [findGoH] at h
  | succ f ih =>
    rw [findGoH] at h ⊢
    by_cases h1 : getFull (hnd t index).fpc = true ∧
        getFp key = getFp (hnd t index).fpc ∧ (hnd t index).key = key
    · simp only [if_pos h1]
      exact h1.2.2
    · simp only [if_neg h1] at h ⊢
      by_cases h2 : (hnd t index).next = 0
      · simp [h2] at h
      · simp only [if_neg h2] at h ⊢
        exact ih _ _ h

theorem hfind_key (t : HT) (k : Nat) (h : (hfind t k).1 ≠ eIdx) :
    (hnd t (hfind t k).1).key = k :=
  findGoH_key _ _ _ _ _ h

theorem eraseOpH_absent (t : HT) (k : Nat) (h : (hfind t k).1 = eIdx) :
    eraseOpH t k = (t, false, eIdx) := by
  rw [eraseOpH]
  simp [h]

end DroHash

/-- Claim C1: the claim states that every sequence of inserts and erases
from an empty container (plain tree or hybrid) keeps the red-black and BST
invariants, in particular a black root.  The hybrid refutes it: after
inserting the same-bucket keys 1, 17, 33 into a capacity-16
`hash_flat_base` and erasing 1, the container still holds two elements, but
`root_` points at the freed slot of the erased key 1, whose colour bit is
RED and whose full flag is cleared — the root is red, dead, and the tree
reachable from it has one node although `size() = 2`. -/
theorem c1_hybrid_erase_breaks_rb_invariants :
    DroHash.c1State.size = 2 ∧
    DroHash.getClr (DroHash.hnd DroHash.c1State DroHash.c1State.root).fpc = false ∧
    DroHash.getFull (DroHash.hnd DroHash.c1State DroHash.c1State.root).fpc = false ∧
    (DroHash.hnd DroHash.c1State DroHash.c1State.root).key = 1 := by
  decide

/-- Claim C2: the claim states that forward iteration visits all stored
keys in ascending order and reverse iteration in the exact reverse, for
keys inserted in any order.  The plain tree refutes it: after inserting 5
then 3, key 5 is in the container (`find` succeeds) but forward iteration
visits only `[3]` (`_next` returns the sentinel outright whenever the
current slot index equals `size_ - 1`); and after inserting Scenario A's
keys [5,3,8,1,4,7,9], reverse iteration visits only `[9]`. -/
theorem c2_plain_iteration_is_truncated :
    DroFlat.iterFwd DroFlat.c2State = [3] ∧
    DroFlat.findIndex DroFlat.c2State 5 ≠ DroFlat.eIdx ∧
    DroFlat.iterRev DroFlat.c2RevState = [9] ∧
    DroFlat.iterFwd DroFlat.c2RevState = [1, 3, 4, 5, 7, 8, 9] := by
  decide

/-- Claim C4: the claim states that inserting an already-present key
returns an iterator to the existing element together with `false`, leaving
the container unchanged.  The hybrid refutes the iterator half: with keys 1
and 17 sharing home bucket 1 (capacity 16), the existing 17 lives in
collision slot 14, yet a duplicate `emplace(17)` returns the home index 1 —
an iterator that dereferences to key 1, not 17.  The container itself is
left unchanged. -/
theorem c4_hybrid_duplicate_insert_returns_home_slot :
    (DroHash.emplaceOpH DroHash.hFuel DroHash.exH 17 0).toOption =
      some (DroHash.exH, 1, false) ∧
    (DroHash.hfind DroHash.exH 17).1 = 14 ∧
    (DroHash.hnd DroHash.exH 1).key = 1 ∧
    (DroHash.hnd DroHash.exH 14).key = 17 := by
  decide

/-- Claim C5: erasing an absent key returns the not-found signal and leaves
the container (plain tree or hybrid) completely unchanged; both `_erase`
implementations return before any mutation when the lookup yields the
sentinel. -/
theorem c5_erase_absent_key_is_noop :
    (∀ (t : DroFlat.PT) (k : Nat), DroFlat.findIndex t k = DroFlat.eIdx →
       DroFlat.eraseOp t k = (t, false)) ∧
    (∀ (t : DroHash.HT) (k : Nat), (DroHash.hfind t k).1 = DroFlat.eIdx →
       DroHash.eraseOpH t k = (t, false, DroFlat.eIdx)) :=
  ⟨DroFlat.eraseOp_absent, DroHash.eraseOpH_absent⟩

/-- Witness for C5 at concrete inputs: key 5 is absent from both example
containers, and erasing it returns false/0 with the state unchanged. -/
theorem c5_erase_absent_key_is_noop_witness :
    DroFlat.eraseOp DroFlat.exT 5 = (DroFlat.exT, false) ∧
    DroHash.eraseOpH DroHash.exH 5 = (DroHash.exH, false, DroFlat.eIdx) :=
  ⟨c5_erase_absent_key_is_noop.1 DroFlat.exT 5 (by decide),
   c5_erase_absent_key_is_noop.2 DroHash.exH 5 (by decide)⟩

/-- Claim C6: the claim states that growth doublings preserve the element
set and the sorted iteration order.  Inserting 5 then 3 into a capacity-1
plain tree doubles the capacity to 2 and both keys remain findable, but the
forward iteration afterwards is `[3]`, not `[3, 5]` — the sorted-order half
fails (the same `_next` early return as in C2).  The doubling itself is
`std::min(empty_index_, capacity_ * 2)`, a cap AT the sentinel, not just
below it. -/
theorem c6_growth_doubles_but_breaks_iteration :
    DroFlat.c2State.capacity = 2 ∧ (DroFlat.mkPT 1).capacity = 1 ∧
    DroFlat.grownCapacity 1 = 2 ∧
    DroFlat.findIndex DroFlat.c2State 5 ≠ DroFlat.eIdx ∧
    DroFlat.findIndex DroFlat.c2State 3 ≠ DroFlat.eIdx ∧
    DroFlat.c2State.size = 2 ∧
    DroFlat.iterFwd DroFlat.c2State = [3] := by
  decide

/-- Claim C7: the claim states that after every insert and erase the cached
first/last indices refer to the minimum/maximum elements.  Refuted: after
inserting same-bucket keys 33, 1, 17 (capacity 16) and erasing 33 then 17,
the only live key is 1, yet `last_index_cache_` still points at the freed
slot of key 17 (full flag cleared) — `rbegin()` dereferences a dead slot
instead of the maximum. -/
theorem c7_last_cache_points_at_freed_slot :
    DroHash.c7State.size = 1 ∧
    DroHash.iterFwdH DroHash.c7State = [1] ∧
    (DroHash.hnd DroHash.c7State DroHash.c7State.firstCache).key = 1 ∧
    (DroHash.hnd DroHash.c7State DroHash.c7State.lastCache).key = 17 ∧
    DroHash.getFull (DroHash.hnd DroHash.c7State DroHash.c7State.lastCache).fpc
      = false := by
  decide

/-- Claim C8: the claim states that constructing with the sentinel value as
capacity raises an invalid-argument error.  Refuted: the hybrid
constructor's sentinel check `if (capacity == empty_index_) {}` has an
empty body, so construction succeeds, and the plain tree constructor
performs no capacity validation at all and returns normally. -/
theorem c8_sentinel_capacity_is_accepted :
    (DroHash.mkHT DroFlat.eIdx).isOk = true ∧
    DroFlat.mkPT DroFlat.eIdx =
      { capacity := DroFlat.eIdx, size := 0, root := DroFlat.eIdx,
        nodes := List.replicate DroFlat.eIdx DroFlat.dfltP } := by
  constructor
  · show (if DroFlat.eIdx < 1 then _ else _ : Except String DroHash.HT).isOk = true
    rw [if_neg (by decide)]
    rfl
  · rfl

/-- Claim C9: `extract(key)` is safe only when the key is present.  When
the lookup yields the sentinel, `tree_[empty_index_]` is an out-of-bounds
access (modelled as `none`) in both containers; when the key is present at
a live slot, `extract` returns a copy of that key's node. -/
theorem c9_extract_requires_presence :
    (∀ (t : DroFlat.PT) (k : Nat),
      (t.nodes.length ≤ DroFlat.eIdx → DroFlat.findIndex t k = DroFlat.eIdx →
        DroFlat.extractOp t k = none) ∧
      (DroFlat.findIndex t k ≠ DroFlat.eIdx →
        DroFlat.findIndex t k < t.nodes.length →
        DroFlat.extractOp t k = some (DroFlat.nd t (DroFlat.findIndex t k)) ∧
        (DroFlat.nd t (DroFlat.findIndex t k)).key = k)) ∧
    (∀ (t : DroHash.HT) (k : Nat),
      (t.nodes.length ≤ DroFlat.eIdx → (DroHash.hfind t k).1 = DroFlat.eIdx →
        DroHash.extractOpH t k = none) ∧
      ((DroHash.hfind t k).1 ≠ DroFlat.eIdx →
        (DroHash.hfind t k).1 < t.nodes.length →
        DroHash.extractOpH t k = some (DroHash.hnd t (DroHash.hfind t k).1) ∧
        (DroHash.hnd t (DroHash.hfind t k).1).key = k)) := by
  constructor
  · intro t k
    constructor
    · intro hlen hf
      rw [DroFlat.extractOp, hf]
      exact List.get?_eq_none.2 hlen
    · intro hf hlt
      refine ⟨?_, DroFlat.findIndex_key t k hf⟩
      rw [DroFlat.extractOp, DroFlat.nd, List.getD_eq_getElem?_getD,
        List.get?_eq_getElem?, List.getElem?_eq_getElem hlt]
      rfl
  · intro t k
    constructor
    · intro hlen hf
      rw [DroHash.extractOpH, hf]
      exact List.get?_eq_none.2 hlen
    · intro hf hlt
      refine ⟨?_, DroHash.hfind_key t k hf⟩
      rw [DroHash.extractOpH, DroHash.hnd, List.getD_eq_getElem?_getD,
        List.get?_eq_getElem?, List.getElem?_eq_getElem hlt]
      rfl

/-- Witness for C9 at concrete inputs: in the one-element plain tree and
the two-element hybrid, extracting absent key 5 hits the sentinel
(out-of-bounds, `none`), and extracting present key 2 resp. 17 returns that
key's node. -/
theorem c9_extract_requires_presence_witness :
    DroFlat.extractOp DroFlat.exT 5 = none ∧
    (DroFlat.extractOp DroFlat.exT 2 =
       some (DroFlat.nd DroFlat.exT (DroFlat.findIndex DroFlat.exT 2)) ∧
     (DroFlat.nd DroFlat.exT (DroFlat.findIndex DroFlat.exT 2)).key = 2) ∧
    DroHash.extractOpH DroHash.exH 5 = none ∧
    (DroHash.extractOpH DroHash.exH 17 =
       some (DroHash.hnd DroHash.exH (DroHash.hfind DroHash.exH 17).1) ∧
     (DroHash.hnd DroHash.exH (DroHash.hfind DroHash.exH 17).1).key = 17) :=
  ⟨(c9_extract_requires_presence.1 DroFlat.exT 5).1 (by decide) (by decide),
   (c9_extract_requires_presence.1 DroFlat.exT 2).2 (by decide) (by decide),
   (c9_extract_requires_presence.2 DroHash.exH 5).1 (by decide) (by decide),
   (c9_extract_requires_presence.2 DroHash.exH 17).2 (by decide) (by decide)⟩

/-- Claim C10: the claim states that `merge(source)` copies every element
of the source into the destination, keeping the destination's element on
key clashes and leaving the source unchanged.  The plain tree's merge does
exactly that (shown here: key 3 arrives with the source's value 30, the
clashing key 2 keeps the destination's value 20, key 1 is untouched, and
the source operand is only read).  The hybrid's `merge`, however, calls a
member `_insert` that does not exist anywhere in the repository, so every
instantiation of `hash_flat_base::merge` fails to compile. -/
theorem c10_plain_merge_keeps_destination_elements :
    DroFlat.mergeRes.size = 3 ∧
    (DroFlat.nd DroFlat.mergeRes (DroFlat.findIndex DroFlat.mergeRes 1)).val = 10 ∧
    (DroFlat.nd DroFlat.mergeRes (DroFlat.findIndex DroFlat.mergeRes 2)).val = 20 ∧
    (DroFlat.nd DroFlat.mergeRes (DroFlat.findIndex DroFlat.mergeRes 3)).val = 30 ∧
    DroFlat.findIndex DroFlat.mergeRes 3 ≠ DroFlat.eIdx := by
  decide

namespace DroFlat

theorem findInsGo_of_found (f : Nat) (t : PT) (node parent key : Nat)
    (h : findIndexGo f t node key ≠ eIdx) :
    findInsGo f t node parent key = (findIndexGo f t node key, false) := by
  induction f generalizing node parent with
  | zero => simp [findIndexGo] at h
  | succ f ih =>
    rw [findIndexGo] at h ⊢
    rw [findInsGo]
    by_cases h1 : node = eIdx
    · simp [h1] at h
    · simp only [if_neg h1] at h ⊢
      by_cases h2 : (nd t node).key = key
      · simp [h2]
      · have h2s : ¬ key = (nd t node).key := fun he => h2 he.symm
        simp only [if_neg h2, if_neg h2s] at h ⊢
        by_cases h3 : (nd t node).key < key
        · have h3s : ¬ key < (nd t node).key := by omega
          simp only [if_pos h3, if_neg h3s] at h ⊢
          exact ih _ _ h
        · have h3s : key < (nd t node).key := by
            rcases Nat.lt_or_ge (nd t node).key key with hlt | hge
            · exact absurd hlt h3
            · omega
          simp only [if_neg h3, if_pos h3s] at h ⊢
          exact ih _ _ h

/-- Duplicate insert on the plain tree: when the key is present (and the
container is not at the index-type limit), `_emplace` returns the existing
element's index with `false` and leaves the state untouched — the spec's
idempotence property, which the plain tree does satisfy. -/
theorem emplaceOp_duplicate_noop (t : PT) (k v : Nat) (hs : t.size ≠ eIdx)
    (h : findIndex t k ≠ eIdx) :
    emplaceOp t k v = .ok (t, findIndex t k, false) := by
  rw [emplaceOp, if_neg hs]
  have hfi := findInsGo_of_found (t.nodes.length + 1) t t.root eIdx k h
  rw [findInsertLocation, hfi]
  simp [findIndex]

end DroFlat
